import Mathlib

/-!
Shallow embedding of the core catalog, compaction and HTTP-validation logic of
the influxdb3 storage node (crates `influxdb3_catalog`, `influxdb3_write`,
`influxdb3_server`), together with proofs settling the specification claims.

Machine integers (`u64`, `usize`) are modelled as `Nat`; `i64` timestamps as
`Int`; fallible Rust functions returning `Result` are modelled with `Except`,
and functions that can `panic!`/`assert!`/`expect` are modelled with `Option`
(`none` standing for the panic).
-/

set_option maxRecDepth 10000

namespace Influx

/-- Error cases of `CatalogError` that the embedded code paths can produce
(from `influxdb3_catalog`). Payloads irrelevant to the claims are dropped. -/
inductive CatalogError where
  | alreadyExists
  | notFound
  | tooManyDbs (limit : Nat)
  | fieldTypeMismatch
  | cannotChangeGenerationDuration (level existing attempted : Nat)
  | invalidNodeRegistration
deriving DecidableEq, Repr

/-! ## Generation configuration (`GenerationConfig`, catalog.rs) -/

/-- `GenerationConfig.generation_durations: BTreeMap<u8, Duration>`, modelled as
an association list from generation level to duration (in nanoseconds).
The `BTreeMap` key ordering is irrelevant to the embedded operations, which
only look keys up and insert fresh keys. -/
structure GenerationConfig where
  generation_durations : List (Nat × Nat)
deriving DecidableEq, Repr

/-- `GenerationConfig::set_duration` (catalog.rs): on an occupied entry with a
different duration, fail with `CannotChangeGenerationDuration`; on an occupied
entry with the same duration, report no change; on a vacant entry, insert the
duration and report a change. Returns the changed-flag and the (possibly
updated) configuration. -/
def GenerationConfig.set_duration (cfg : GenerationConfig) (level duration : Nat) :
    Except CatalogError (Bool × GenerationConfig) :=
  match cfg.generation_durations.lookup level with
  | some existing =>
    if existing ≠ duration then
      .error (.cannotChangeGenerationDuration level existing duration)
    else
      .ok (false, cfg)
  | none =>
    .ok (true, ⟨cfg.generation_durations ++ [(level, duration)]⟩)

/-! ## Write permit and sequencing (`Catalog`, catalog.rs) -/

/-- `Prompt<T>`: the catalog write path either succeeds with a payload or asks
the caller to retry against the current state. -/
inductive Prompt (α : Type) where
  | success (a : α)
  | retry
deriving DecidableEq, Repr

/-- `OrderedCatalogBatch = (batch, sequence)`: a catalog batch stamped with the
sequence number it will advance the catalog to. The batch contents are kept
abstract (type `β`), since the sequencing logic never inspects them. -/
structure OrderedCatalogBatch (β : Type) where
  batch : β
  sequence : Nat
deriving DecidableEq, Repr

/-- `Catalog::get_permit_and_verify_catalog_batch` (catalog.rs): under the
write permit, compare the caller-observed sequence with the catalog's current
sequence; if they differ, issue a `Retry`; otherwise store `current + 1` in the
permit and return the batch stamped with `current + 1` together with the permit
contents. -/
def get_permit_and_verify_catalog_batch {β : Type} (batch : β)
    (currentSeq observedSeq : Nat) : Prompt (OrderedCatalogBatch β × Nat) :=
  if observedSeq ≠ currentSeq then
    .retry
  else
    .success (⟨batch, currentSeq + 1⟩, currentSeq + 1)

/-- `Catalog::apply_ordered_catalog_batch` composed with
`InnerCatalog::apply_catalog_batch` (catalog.rs), restricted to the sequence
bookkeeping: assert that the batch's stamped sequence equals `current + 1`
(`none` models the `assert_eq!` panic), apply the ops (`updated` says whether
they changed the catalog; an unchanged batch trips the
`expect("ordered catalog batch should contain changes")`, also `none`), and on
success advance the catalog sequence to exactly the stamped value. -/
def apply_ordered_catalog_batch (currentSeq batchSeq : Nat) (updated : Bool) :
    Option Nat :=
  if batchSeq = currentSeq + 1 then
    if updated then some batchSeq else none
  else
    none

/-! ## Persisted files and compaction catalog update (`compaction.rs`) -/

/-- `ParquetFile` (influxdb3_write): descriptor of one persisted parquet file. -/
structure ParquetFile where
  id : Nat
  path : String
  size_bytes : Nat
  row_count : Nat
  chunk_time : Int
  min_time : Int
  max_time : Int
deriving DecidableEq, Repr

/-- The object store and persisted-files index state that
`update_catalog_for_compaction` can act on: the per-(db,table) persisted-files
index entry, and the set of blob paths in the object store. -/
structure CompactionState where
  index : List ParquetFile
  storePaths : List String
deriving DecidableEq, Repr

/-- `CompactionService::update_catalog_for_compaction` (compaction.rs): despite
its name and doc comment ("add new compacted files and remove old files"), the
function ignores `_job` and `_new_files` entirely; its body only issues
best-effort object-store deletes for the old files' paths. The persisted-files
index is left untouched. -/
def update_catalog_for_compaction (st : CompactionState)
    (_newFiles oldFiles : List ParquetFile) : CompactionState :=
  { index := st.index
    storePaths := st.storePaths.filter (fun p => ¬ oldFiles.any (fun f => f.path = p)) }

/-- `CompactionService::calculate_time_range_from_batch` (compaction.rs),
restricted to the time column of the record batch (an `i64` timestamp array):
an empty column yields `(0, 0)`; otherwise `min_time` is the first value and
`max_time` the last value, and the function errors when it finds a value
strictly below the first value (the code's sortedness check compares every
element against `min_time`, the first element, not against its predecessor). -/
def calculate_time_range_from_batch (timeArray : List Int) :
    Except String (Int × Int) :=
  match timeArray with
  | [] => .ok (0, 0)
  | t0 :: rest =>
    if rest.any (fun v => v < t0) then
      .error "Time column is not sorted"
    else
      .ok (t0, (t0 :: rest).getLast (by simp))

/-- A list of timestamps is non-decreasing (the property the spec asks the
compactor to assert of each output batch's time column). -/
def nonDecreasing : List Int → Bool
  | [] => true
  | [_] => true
  | a :: b :: rest => a ≤ b && nonDecreasing (b :: rest)

/-! ## Database name validation (`validate_db_name`, http.rs) -/

/-- `ValidateDbNameError` (http.rs). -/
inductive ValidateDbNameError where
  | invalidChar
  | invalidStartChar
  | invalidRetentionPolicy
  | empty
deriving DecidableEq, Repr

/-- The `V1_NAMESPACE_RP_SEPARATOR` character. -/
def rpSeparator : Char := '/'

/-- The per-character loop of `validate_db_name` (http.rs). The source iterates
grapheme clusters and rejects any cluster longer than one byte; at character
granularity this is modelled by rejecting any non-ASCII character (every
multi-byte UTF-8 sequence contains a character with code point at least 128,
and the verdict is `InvalidChar` either way). The loop threads `is_first_char`,
`rp_seperator_found` and `last_char` exactly as the source does, and the match
on `(accept_rp, rp_seperator_found, char)` is mirrored arm by arm: note that
the `InvalidChar` arm requires `accept_rp = false`, so with `accept_rp = true`
any ASCII character other than a misplaced separator falls through to the
catch-all arm and is accepted. -/
def validate_db_name_loop (acceptRp : Bool) :
    Bool → Bool → Option Char → List Char →
      Except ValidateDbNameError (Option Char)
  | _, _, lastChar, [] => .ok lastChar
  | isFirst, rpFound, _, c :: rest =>
    if c.toNat ≥ 128 then
      .error .invalidChar
    else if isFirst then
      if ¬ c.isAlphanum then
        .error .invalidStartChar
      else
        validate_db_name_loop acceptRp false rpFound (some c) rest
    else if acceptRp ∧ rpFound ∧ c = rpSeparator then
      .error .invalidRetentionPolicy
    else if acceptRp ∧ ¬ rpFound ∧ c = rpSeparator then
      validate_db_name_loop acceptRp false true (some c) rest
    else if ¬ acceptRp ∧ ¬ (c.isAlphanum ∨ c = '_' ∨ c = '-') then
      .error .invalidChar
    else
      validate_db_name_loop acceptRp false rpFound (some c) rest

/-- `validate_db_name` (http.rs): empty names are rejected; then the character
loop runs; finally a name whose last character is the `/` separator is
rejected. -/
def validate_db_name (name : List Char) (acceptRp : Bool) :
    Except ValidateDbNameError Unit :=
  if name = [] then
    .error .empty
  else
    match validate_db_name_loop acceptRp true false none name with
    | .error e => .error e
    | .ok lastChar =>
      if lastChar = some rpSeparator then .error .invalidRetentionPolicy
      else .ok ()

/-! ## Repository (catalog.rs) -/

/-- A catalog resource: something with a unique name (`CatalogResource::name`)
and a payload. The payload is kept abstract as a `Nat` tag, since the
repository operations never inspect it. -/
structure Resource where
  name : String
  payload : Nat
deriving DecidableEq, Repr

/-- `Repository<I, R>` (catalog.rs): insertion-ordered id-to-resource map
(`SerdeVecMap`), bi-directional id-to-name map (`BiHashMap`), and the
`next_id` cursor. Ids are modelled as `Nat` (`CatalogId::next` is `+ 1`,
`I::default()` is `0`). Both maps are modelled as association lists. -/
structure Repository where
  repo : List (Nat × Resource)
  id_name_map : List (Nat × String)
  next_id : Nat
deriving DecidableEq, Repr

/-- `Repository::new`. -/
def Repository.new : Repository := ⟨[], [], 0⟩

/-- `IndexMap::insert` (used by `SerdeVecMap`): replace the value in place when
the key is present, append otherwise. -/
def mapInsert (m : List (Nat × Resource)) (id : Nat) (res : Resource) :
    List (Nat × Resource) :=
  if m.any (fun p => p.1 = id) then
    m.map (fun p => if p.1 = id then (id, res) else p)
  else
    m ++ [(id, res)]

/-- `BiHashMap::insert` (bimap crate, overwriting insert): remove every pair
that shares the left value `id` or the right value `name`, then add the pair. -/
def bimapInsert (m : List (Nat × String)) (id : Nat) (name : String) :
    List (Nat × String) :=
  (m.filter (fun p => p.1 ≠ id ∧ p.2 ≠ name)) ++ [(id, name)]

/-- `Repository::id_exists` (catalog.rs): checks the id in both maps and
`assert_eq!`s that the answers agree (`none` models the panic on an
inconsistent repository). -/
def Repository.id_exists (r : Repository) (id : Nat) : Option Bool :=
  let idInMap := r.id_name_map.any (fun p => p.1 = id)
  let idInRepo := r.repo.any (fun p => p.1 = id)
  if idInMap = idInRepo then some idInRepo else none

/-- `Repository::id_and_name_exists` (catalog.rs). -/
def Repository.id_and_name_exists (r : Repository) (id : Nat) (name : String) :
    Option Bool :=
  (r.id_exists id).map (fun b => b && r.id_name_map.any (fun p => p.2 = name))

/-- `Repository::insert` (catalog.rs): error with `AlreadyExists` when both the
id and the name are present; otherwise insert into both maps (with the bimap's
overwriting semantics) and bump `next_id` to `id + 1` when it was less than or
equal to `id`. -/
def Repository.insert (r : Repository) (id : Nat) (res : Resource) :
    Option (Except CatalogError Repository) :=
  match r.id_and_name_exists id res.name with
  | none => none
  | some true => some (.error .alreadyExists)
  | some false =>
    some (.ok
      { repo := mapInsert r.repo id res
        id_name_map := bimapInsert r.id_name_map id res.name
        next_id := if r.next_id ≤ id then id + 1 else r.next_id })

/-- `Repository::update` (catalog.rs): error with `NotFound` when the id is
absent; otherwise overwrite both maps, leaving `next_id` alone. -/
def Repository.update (r : Repository) (id : Nat) (res : Resource) :
    Option (Except CatalogError Repository) :=
  match r.id_exists id with
  | none => none
  | some false => some (.error .notFound)
  | some true =>
    some (.ok
      { repo := mapInsert r.repo id res
        id_name_map := bimapInsert r.id_name_map id res.name
        next_id := r.next_id })

/-- `Repository::remove` (catalog.rs): `remove_by_left` on the bimap and
`shift_remove` on the value map. -/
def Repository.remove (r : Repository) (id : Nat) : Repository :=
  { repo := r.repo.filter (fun p => p.1 ≠ id)
    id_name_map := r.id_name_map.filter (fun p => p.1 ≠ id)
    next_id := r.next_id }

/-- `Repository::get_and_increment_next_id` (catalog.rs). -/
def Repository.get_and_increment_next_id (r : Repository) : Nat × Repository :=
  (r.next_id, { r with next_id := r.next_id + 1 })

/-- The repository states reachable from the empty repository by any sequence
of `insert`, `update` and `remove` operations (claim C8's quantification).
Failing operations leave the state unchanged, so only the succeeding branches
produce new states. -/
inductive Reachable : Repository → Prop where
  | new : Reachable Repository.new
  | insertOk {r : Repository} {id : Nat} {res : Resource} {r2 : Repository} :
      Reachable r → r.insert id res = some (.ok r2) → Reachable r2
  | updateOk {r : Repository} {id : Nat} {res : Resource} {r2 : Repository} :
      Reachable r → r.update id res = some (.ok r2) → Reachable r2
  | removeStep {r : Repository} (id : Nat) :
      Reachable r → Reachable (r.remove id)

/-- Reachable states restricted to operations that never introduce a resource
name already mapped to a *different* id (the discipline all catalog callers
follow, since they resolve names before choosing ids). -/
inductive SafeReachable : Repository → Prop where
  | new : SafeReachable Repository.new
  | insertOk {r : Repository} {id : Nat} {res : Resource} {r2 : Repository} :
      SafeReachable r →
      (∀ p ∈ r.id_name_map, p.2 = res.name → p.1 = id) →
      r.insert id res = some (.ok r2) → SafeReachable r2
  | updateOk {r : Repository} {id : Nat} {res : Resource} {r2 : Repository} :
      SafeReachable r →
      (∀ p ∈ r.id_name_map, p.2 = res.name → p.1 = id) →
      r.update id res = some (.ok r2) → SafeReachable r2
  | removeStep {r : Repository} (id : Nat) :
      SafeReachable r → SafeReachable (r.remove id)

/-- The repository states reachable from the empty repository by inserts and
by `get_and_increment_next_id` (claim C10's quantification). -/
inductive ReachableWithGen : Repository → Prop where
  | new : ReachableWithGen Repository.new
  | insertOk {r : Repository} {id : Nat} {res : Resource} {r2 : Repository} :
      ReachableWithGen r → r.insert id res = some (.ok r2) → ReachableWithGen r2
  | genStep {r : Repository} :
      ReachableWithGen r → ReachableWithGen r.get_and_increment_next_id.2

/-- The invariant claimed by the spec: the id-to-name bi-map and the value map
hold exactly the same set of ids. -/
def Repository.sameIdSet (r : Repository) : Prop :=
  ∀ id, (∃ p ∈ r.repo, p.1 = id) ↔ (∃ p ∈ r.id_name_map, p.1 = id)

/-! ## Databases and the remaining limit check (catalog.rs) -/

/-- `Catalog::NUM_DBS_LIMIT` (catalog.rs): `usize::MAX`. -/
def NUM_DBS_LIMIT : Nat := 2 ^ 64 - 1

/-- `NUM_TAG_COLUMNS_LIMIT` (catalog.rs): `usize::MAX` — the comment in the
source reads "removed crippled limit". -/
def NUM_TAG_COLUMNS_LIMIT : Nat := 2 ^ 64 - 1

/-- `INTERNAL_DB_NAME`. -/
def INTERNAL_DB_NAME : String := "_internal"

/-- `InnerCatalog::database_count` (catalog.rs): databases that are neither
soft-deleted nor the reserved internal database. A database is modelled as its
name and its `deleted` flag. -/
def database_count (dbs : List (String × Bool)) : Nat :=
  (dbs.filter (fun d => ¬ d.2 ∧ d.1 ≠ INTERNAL_DB_NAME)).length

/-- `Catalog::db_or_create` (catalog.rs), restricted to the data the limit
check uses: return the existing database when the name resolves; otherwise
fail with `TooManyDbs` when `database_count ≥ num_dbs_limit`; otherwise create
the database. This is the only limit check left in the catalog source. -/
def db_or_create (dbs : List (String × Bool)) (numDbsLimit : Nat)
    (name : String) : Except CatalogError (List (String × Bool)) :=
  if dbs.any (fun d => d.1 = name) then
    .ok dbs
  else if database_count dbs ≥ numDbsLimit then
    .error (.tooManyDbs numDbsLimit)
  else
    .ok (dbs ++ [(name, false)])

/-! ## Table definitions, series key and sort key (catalog.rs) -/

/-- `InfluxColumnType`: the `Field` primitive subtype is irrelevant to the
claims and is dropped. -/
inductive InfluxColumnType where
  | tag
  | field
  | timestamp
deriving DecidableEq, Repr

/-- `TIME_COLUMN_NAME`. -/
def TIME_COLUMN_NAME : String := "time"

/-- `ColumnDefinition` (catalog.rs). -/
structure ColumnDefinition where
  id : Nat
  name : String
  data_type : InfluxColumnType
  nullable : Bool
deriving DecidableEq, Repr

/-- Lexicographic order on character lists by code point: for ASCII names this
is exactly the byte order `BTreeMap<&str, _>` sorts by. -/
def charListLt : List Char → List Char → Bool
  | [], [] => false
  | [], _ :: _ => true
  | _ :: _, [] => false
  | a :: as, b :: bs =>
    if a.toNat < b.toNat then true
    else if a.toNat = b.toNat then charListLt as bs
    else false

/-- String order used for the `BTreeMap` keyed by column name. -/
def strLt (a b : String) : Bool := charListLt a.toList b.toList

/-- Insertion into a name-sorted column list, mirroring
`BTreeMap<name, _>::insert`: replace on an equal key, otherwise keep the list
sorted by name. -/
def btreeInsert (cols : List ColumnDefinition) (c : ColumnDefinition) :
    List ColumnDefinition :=
  match cols with
  | [] => [c]
  | d :: rest =>
    if strLt c.name d.name then c :: d :: rest
    else if c.name = d.name then c :: rest
    else d :: btreeInsert rest c

/-- Build a `BTreeMap`-ordered column list by repeated insertion. -/
def btreeFromList (cols : List ColumnDefinition) : List ColumnDefinition :=
  cols.foldl btreeInsert []

/-- One `Repository::insert` step of the column repository built at the end of
`TableDefinition::new` / `add_columns`. Names are unique at this point (they
come out of the name-keyed `BTreeMap`), so only the id-collision behaviour of
`Repository::insert` remains observable: replace in place on an existing id,
append otherwise. -/
def colRepoInsert (cols : List ColumnDefinition) (c : ColumnDefinition) :
    List ColumnDefinition :=
  if cols.any (fun d => d.id = c.id) then
    cols.map (fun d => if d.id = c.id then c else d)
  else
    cols ++ [c]

/-- The column repository built from the `BTreeMap`'s values in order. -/
def colRepoFromList (cols : List ColumnDefinition) : List ColumnDefinition :=
  cols.foldl colRepoInsert []

/-- `Repository::contains_name` on a column list. -/
def containsName (cols : List ColumnDefinition) (name : String) : Bool :=
  cols.any (fun c => c.name = name)

/-- `TableDefinition` (catalog.rs): columns are kept in the order of the
column `Repository` (which `new`/`add_columns` rebuild from the name-keyed
`BTreeMap`), alongside the series key ids, the series key names, and the sort
key. The arrow `schema` is external and not modelled. -/
structure TableDefinition where
  table_id : Nat
  table_name : String
  columns : List ColumnDefinition
  series_key : List Nat
  series_key_names : List String
  sort_key : List String
deriving DecidableEq, Repr

/-- `TableDefinition::make_sort_key` (catalog.rs): the series key names,
followed by the time column when `add_time` is set. -/
def make_sort_key (seriesKeyNames : List String) (addTime : Bool) :
    List String :=
  if addTime then seriesKeyNames ++ [TIME_COLUMN_NAME] else seriesKeyNames

/-- `TableDefinition::new` (catalog.rs): order the given columns through a
name-keyed `BTreeMap` (later duplicates of a name win), build the column
repository, resolve the series key ids to names (the `expect` on a missing id
is modelled by `none`), and compute the sort key from the series key names and
the presence of a column named `time`. Column nullability is
`data_type ≠ Timestamp` here. -/
def TableDefinition.new (tableId : Nat) (tableName : String)
    (columns : List (Nat × String × InfluxColumnType)) (seriesKey : List Nat) :
    Option TableDefinition :=
  let ordered := btreeFromList (columns.map (fun c =>
    ⟨c.1, c.2.1, c.2.2, if c.2.2 = .timestamp then false else true⟩))
  let repoCols := colRepoFromList ordered
  match seriesKey.mapM (fun id =>
      (repoCols.find? (fun c => c.id = id)).map (fun c => c.name)) with
  | none => none
  | some skNames =>
    some
      { table_id := tableId
        table_name := tableName
        columns := repoCols
        series_key := seriesKey
        series_key_names := skNames
        sort_key := make_sort_key skNames (containsName repoCols TIME_COLUMN_NAME) }

/-- The per-column loop of `TableDefinition::add_columns` (catalog.rs): insert
each new column into the name-keyed map (the `assert!` that the name is fresh
is modelled by `none`), appending new tags to the series key in arrival order
and flagging a sort-key change for any tag or timestamp column whose id is not
already in the series key. Nullability is `name ≠ "time"` here. -/
def addColumnsLoop :
    List ColumnDefinition → List Nat → List String → Bool →
    List (Nat × String × InfluxColumnType) →
    Option (List ColumnDefinition × List Nat × List String × Bool)
  | cols, sk, skn, changed, [] => some (cols, sk, skn, changed)
  | cols, sk, skn, changed, (id, name, typ) :: rest =>
    if containsName cols name then
      none
    else
      let cols2 := btreeInsert cols
        ⟨id, name, typ, if name = TIME_COLUMN_NAME then false else true⟩
      if typ = .tag ∧ ¬ sk.contains id then
        addColumnsLoop cols2 (sk ++ [id]) (skn ++ [name]) true rest
      else if typ = .timestamp ∧ ¬ sk.contains id then
        addColumnsLoop cols2 sk skn true rest
      else
        addColumnsLoop cols2 sk skn changed rest

/-- `TableDefinition::add_columns` (catalog.rs): run the loop over a
`BTreeMap` rebuilt from the existing columns, rebuild the column repository,
and recompute the sort key from the updated series key names and time-column
presence only when the loop flagged a change. -/
def TableDefinition.add_columns (t : TableDefinition)
    (newCols : List (Nat × String × InfluxColumnType)) :
    Option TableDefinition :=
  match addColumnsLoop (btreeFromList t.columns) t.series_key
      t.series_key_names false newCols with
  | none => none
  | some (cols, sk, skn, changed) =>
    let repoCols := colRepoFromList cols
    some
      { t with
        columns := repoCols
        series_key := sk
        series_key_names := skn
        sort_key :=
          if changed then
            make_sort_key skn (containsName repoCols TIME_COLUMN_NAME)
          else t.sort_key }

/-- `TableDefinition::num_tag_columns` (catalog.rs). -/
def TableDefinition.num_tag_columns (t : TableDefinition) : Nat :=
  (t.columns.filter (fun c => c.data_type = .tag)).length

/-! ## File generation parsing (`get_file_generation`, compaction.rs) -/

/-- The `"/gen"` marker searched for in file paths. -/
def genMarker : List Char := ['/', 'g', 'e', 'n']

/-- `str::find("/gen")` followed by slicing off the marker: returns the path
suffix after the first occurrence of `"/gen"`, or `none` when there is no
occurrence. -/
def findGen : List Char → Option (List Char)
  | [] => none
  | c :: rest =>
    if genMarker.isPrefixOf (c :: rest) then some ((c :: rest).drop 4)
    else findGen rest

/-- `gen_part.find('/')` followed by slicing: the characters before the first
`'/'`, or `none` when there is none. -/
def takeToSlash (l : List Char) : Option (List Char) :=
  if l.contains '/' then some (l.takeWhile (fun c => c ≠ '/')) else none

/-- The numeric value of a decimal digit character. -/
def digitVal? (c : Char) : Option Nat :=
  if c.isDigit then some (c.toNat - '0'.toNat) else none

/-- Left-to-right decimal accumulation over a character list: `none` on the
first non-digit. -/
def parseNatGo (acc : Nat) : List Char → Option Nat
  | [] => some acc
  | c :: rest =>
    match digitVal? c with
    | some d => parseNatGo (acc * 10 + d) rest
    | none => none

/-- Rust's `str::parse::<u8>()`: an optional leading `'+'`, then a non-empty
run of decimal digits whose value fits in a `u8`. -/
def parse_u8 (s : List Char) : Option Nat :=
  let body : List Char :=
    match s with
    | c :: rest => if c = '+' then rest else c :: rest
    | [] => []
  if body = [] then none
  else
    match parseNatGo 0 body with
    | some v => if v ≤ 255 then some v else none
    | none => none

/-- `CompactionService::get_file_generation` (compaction.rs): a path with no
`"/gen"` occurrence defaults to generation 1; otherwise the characters between
the marker and the next `'/'` are parsed as a `u8` and accepted only in the
range `1..=5`; every other outcome is an error. -/
def get_file_generation (path : List Char) : Except String Nat :=
  match findGen path with
  | none => .ok 1
  | some genPart =>
    match takeToSlash genPart with
    | none => .error "could not find generation end marker in path"
    | some genStr =>
      match parse_u8 genStr with
      | none => .error "invalid generation in path"
      | some g =>
        if 1 ≤ g ∧ g ≤ 5 then .ok g else .error "invalid generation number"

/-- The decimal digit characters of a natural number, most significant first. -/
def natDigits (n : Nat) : List Char :=
  if n < 10 then [Char.ofNat ('0'.toNat + n)]
  else natDigits (n / 10) ++ [Char.ofNat ('0'.toNat + n % 10)]
decreasing_by exact Nat.div_lt_self (by omega) (by omega)

/-! ## Reachable table definitions (claim C5) -/

/-- The table definitions reachable through `TableDefinition::new` and
`TableDefinition::add_columns`, restricted as the amended claim C5 requires.
Unrestricted, the claimed invariant is false: `add_columns` with a column
whose id is already in the series key succeeds without panic but skips the
sort-key rebuild (`sort_key_changed` stays false because
`series_key.contains(&id)` holds), so a time column can enter the table while
the sort key keeps its old shape — see the counterexample. The two side
conditions of `addCols` are therefore part of the amended claim: new column
ids lie outside the table's series key (the restriction the counterexample
forces; the running system allocates ids through
`Repository::get_and_increment_next_id`, which never reuses one), and any
column named `time` carries the `Timestamp` type (a `Field` named `time`
would likewise leave `sort_key_changed` unset; the write path only ever
creates `time` as the timestamp column). -/
inductive TableReachable : TableDefinition → Prop where
  | newTable {tid : Nat} {name : String}
      {cols : List (Nat × String × InfluxColumnType)} {sk : List Nat}
      {t : TableDefinition} :
      TableDefinition.new tid name cols sk = some t → TableReachable t
  | addCols {t : TableDefinition}
      {newCols : List (Nat × String × InfluxColumnType)}
      {t2 : TableDefinition} :
      TableReachable t →
      (∀ c ∈ newCols, c.2.1 = TIME_COLUMN_NAME →
        c.2.2 = InfluxColumnType.timestamp) →
      (∀ c ∈ newCols, c.1 ∉ t.series_key) →
      t.add_columns newCols = some t2 →
      TableReachable t2

/-! ## Concrete inputs used by counterexamples and witnesses -/

/-- The repository after `insert(0, "a")` on the empty repository. -/
def repoA : Repository := ⟨[(0, ⟨"a", 0⟩)], [(0, "a")], 1⟩

/-- The repository after a further `insert(1, "a")` on `repoA`: the insert
succeeds, the bimap's overwriting insert drops the pair `(0, "a")`, and the
value map keeps id `0`. -/
def repoB : Repository := ⟨[(0, ⟨"a", 0⟩), (1, ⟨"a", 1⟩)], [(1, "a")], 2⟩

/-- A table definition holding 250 tag columns (single-character column names,
all of them in the series key and the sort key). -/
def tag250tbl : TableDefinition :=
  { table_id := 1
    table_name := "weather"
    columns := (List.range 250).map (fun i =>
      ⟨i, String.mk [Char.ofNat (600 - i)], InfluxColumnType.tag, true⟩)
    series_key := List.range 250
    series_key_names := (List.range 250).map (fun i =>
      String.mk [Char.ofNat (600 - i)])
    sort_key := (List.range 250).map (fun i =>
      String.mk [Char.ofNat (600 - i)]) }

/-- The table created by `TableDefinition::new(1, "tbl", [(0, aaa, Tag)], [0])`. -/
def c5bad0 : TableDefinition :=
  { table_id := 1
    table_name := "tbl"
    columns := [⟨0, "aaa", .tag, true⟩]
    series_key := [0]
    series_key_names := ["aaa"]
    sort_key := ["aaa"] }

/-- `c5bad0` after `add_columns [(0, time, Timestamp)]`: the insert succeeds
(the name is fresh), but id 0 is already in the series key, so the sort key is
not rebuilt, and the column repository's overwriting insert replaces the tag
at id 0 with the time column. The table now contains the time column while
its sort key is still `["aaa"]`. -/
def c5bad1 : TableDefinition :=
  { table_id := 1
    table_name := "tbl"
    columns := [⟨0, "time", .timestamp, false⟩]
    series_key := [0]
    series_key_names := ["aaa"]
    sort_key := ["aaa"] }

/-- The table created by
`TableDefinition::new(1, "tbl", [(0, f1, Field), (1, tag999, Tag)], [1])`. -/
def c5table0 : TableDefinition :=
  { table_id := 1
    table_name := "tbl"
    columns := [⟨0, "f1", .field, true⟩, ⟨1, "tag999", .tag, true⟩]
    series_key := [1]
    series_key_names := ["tag999"]
    sort_key := ["tag999"] }

/-- `c5table0` after `add_columns [(2, time, Timestamp)]`. -/
def c5table1 : TableDefinition :=
  { table_id := 1
    table_name := "tbl"
    columns := [⟨0, "f1", .field, true⟩, ⟨1, "tag999", .tag, true⟩,
      ⟨2, "time", .timestamp, false⟩]
    series_key := [1]
    series_key_names := ["tag999"]
    sort_key := ["tag999", "time"] }

/-- A parquet file at generation 1: compaction input. -/
def fileA : ParquetFile :=
  ⟨1, "dbs/t-0/t-1/gen1/2025-01-01/00-00/0.parquet", 100, 10, 0, 0, 60⟩

/-- A parquet file at generation 2: compaction output. -/
def fileB : ParquetFile :=
  ⟨2, "dbs/t-0/t-1/gen2/2025-01-01/00-00/0.parquet", 90, 10, 0, 0, 60⟩

/-! # Theorems -/

/-! ## Claim C2 -/

/-- Claim C2 (code bug): the claim says that after a successful compaction job
the persisted-files index contains every output file and none of the input
files. The function responsible, `update_catalog_for_compaction`, never
modifies the index at all — for every starting state and every choice of
output and input files, the index after the call is exactly the index before
it (only object-store blobs are deleted). In particular the outputs are never
added and the inputs are never removed. -/
theorem update_catalog_leaves_index_unchanged
    (st : CompactionState) (newFiles oldFiles : List ParquetFile) :
    (update_catalog_for_compaction st newFiles oldFiles).index = st.index :=
  rfl

/-! ## Claim C3 -/

/-- Claim C3: `get_permit_and_verify_catalog_batch` returns `Retry` exactly
when the observed sequence differs from the catalog's current sequence;
otherwise it returns `Success` with the batch stamped `current + 1` and the
permit holding `current + 1`; applying that ordered batch passes the
`assert_eq!` (any other stamped sequence panics) and advances the catalog
sequence to exactly `current + 1`. -/
theorem permit_verify_and_apply_sequencing {β : Type} (batch : β)
    (currentSeq observedSeq : Nat) :
    (get_permit_and_verify_catalog_batch batch currentSeq observedSeq =
        .retry ↔ observedSeq ≠ currentSeq) ∧
    (observedSeq = currentSeq →
      get_permit_and_verify_catalog_batch batch currentSeq observedSeq =
        .success (⟨batch, currentSeq + 1⟩, currentSeq + 1) ∧
      apply_ordered_catalog_batch currentSeq (currentSeq + 1) true =
        some (currentSeq + 1)) ∧
    (∀ s : Nat, ∀ updated : Bool, s ≠ currentSeq + 1 →
      apply_ordered_catalog_batch currentSeq s updated = none) := by
  refine ⟨?_, ?_, ?_⟩
  · constructor
    · intro h hobs
      simp [get_permit_and_verify_catalog_batch, hobs] at h
    · intro h
      simp [get_permit_and_verify_catalog_batch, h]
  · intro h
    subst h
    exact ⟨by simp [get_permit_and_verify_catalog_batch],
      by simp [apply_ordered_catalog_batch]⟩
  · intro s updated h
    simp [apply_ordered_catalog_batch, h]

/-- Witness for claim C3 at `current = 5`: observing 4 yields `Retry`,
observing 5 yields `Success` stamped 6, applying advances to 6, and applying a
batch stamped 7 would panic. -/
theorem permit_verify_and_apply_sequencing_witness :
    (get_permit_and_verify_catalog_batch 0 5 4 = Prompt.retry) ∧
    (get_permit_and_verify_catalog_batch 0 5 5 =
      Prompt.success (⟨0, 6⟩, 6) ∧ apply_ordered_catalog_batch 5 6 true = some 6) ∧
    apply_ordered_catalog_batch 5 7 true = none :=
  ⟨(permit_verify_and_apply_sequencing 0 5 4).1.mpr (by decide),
    (permit_verify_and_apply_sequencing 0 5 5).2.1 rfl,
    (permit_verify_and_apply_sequencing 0 5 5).2.2 7 true (by decide)⟩

/-! ## Claim C4 -/

/-- Claim C4 (code bug): the claim says the compactor errors whenever the time
column is not non-decreasing, and otherwise returns the true minimum and
maximum. On the time column `[10, 30, 20]` — which is not non-decreasing and
whose true maximum is `30` — `calculate_time_range_from_batch` succeeds and
returns `(10, 20)`: the sortedness check only compares elements against the
first value, and `max_time` is taken from the last row. -/
theorem time_range_unsorted_batch_accepted :
    calculate_time_range_from_batch [10, 30, 20] = .ok (10, 20) ∧
    nonDecreasing [10, 30, 20] = false ∧
    (30 : Int) ∈ [(10 : Int), 30, 20] ∧ (20 : Int) < 30 := by
  refine ⟨rfl, rfl, by decide, by decide⟩

/-! ## Claim C6 -/

/-- Claim C6: `GenerationConfig::set_duration` inserts the duration and
reports a change when the level is unconfigured; it is a no-op reporting no
change when the level already holds exactly that duration; and it fails with
`CannotChangeGenerationDuration`, producing no updated configuration, when the
level holds a different duration. -/
theorem set_generation_duration_spec (cfg : GenerationConfig)
    (level duration : Nat) :
    (cfg.generation_durations.lookup level = none →
      cfg.set_duration level duration =
        .ok (true, ⟨cfg.generation_durations ++ [(level, duration)]⟩)) ∧
    (cfg.generation_durations.lookup level = some duration →
      cfg.set_duration level duration = .ok (false, cfg)) ∧
    (∀ existing, cfg.generation_durations.lookup level = some existing →
      existing ≠ duration →
      cfg.set_duration level duration =
        .error (.cannotChangeGenerationDuration level existing duration)) := by
  refine ⟨?_, ?_, ?_⟩
  · intro h
    simp [GenerationConfig.set_duration, h]
  · intro h
    simp [GenerationConfig.set_duration, h]
  · intro existing h hne
    simp [GenerationConfig.set_duration, h, hne]

/-- Witness for claim C6: on the empty configuration, setting level 1 to 10
inserts and reports a change; on the resulting configuration, re-setting 10 is
a no-op and setting 20 fails with `CannotChangeGenerationDuration`. -/
theorem set_generation_duration_spec_witness :
    GenerationConfig.set_duration ⟨[]⟩ 1 10 = .ok (true, ⟨[(1, 10)]⟩) ∧
    GenerationConfig.set_duration ⟨[(1, 10)]⟩ 1 10 = .ok (false, ⟨[(1, 10)]⟩) ∧
    GenerationConfig.set_duration ⟨[(1, 10)]⟩ 1 20 =
      .error (.cannotChangeGenerationDuration 1 10 20) :=
  ⟨(set_generation_duration_spec ⟨[]⟩ 1 10).1 rfl,
    (set_generation_duration_spec ⟨[(1, 10)]⟩ 1 10).2.1 rfl,
    (set_generation_duration_spec ⟨[(1, 10)]⟩ 1 20).2.2 10 rfl (by decide)⟩

/-! ## Claim C7 -/

/-- Claim C7 (code bug): the claim (and the function's own doc comment) says
subsequent characters must be alphanumeric, `_` or `-` whether or not a
retention-policy suffix is accepted. But the `InvalidChar` arm of the match in
`validate_db_name` is guarded by `accept_rp == false`, so with
`accept_rp = true` the name `a$b` — whose `$` is neither alphanumeric nor `_`
nor `-` — validates successfully, while the same name is rejected with
`accept_rp = false`. -/
theorem validate_db_name_accept_rp_skips_char_check :
    validate_db_name (String.toList "a$b") true = .ok () ∧
    ('$'.isAlphanum ∨ '$' = '_' ∨ '$' = '-') = False ∧
    validate_db_name (String.toList "a$b") false = .error .invalidChar := by
  refine ⟨rfl, by simp, rfl⟩

/-! ## Claim C1 -/

/-- Counterexample to claim C1: on a table already holding 250 tag columns,
adding a 251st tag column succeeds — the result is a table with 251 tag
columns, not a `TooManyTagColumns` error. The source carries no tag-column
check in `add_columns` at all, and `NUM_TAG_COLUMNS_LIMIT` is `usize::MAX`
with the comment "removed crippled limit". -/
theorem tag251_add_succeeds :
    tag250tbl.num_tag_columns = 250 ∧
    (tag250tbl.add_columns [(250, "textra", InfluxColumnType.tag)]).map
      (fun t => t.num_tag_columns) = some 251 := by
  constructor
  · decide
  · decide

/-- Claim C1 as amended: the per-table tag/column limits and the table limit
are gone from this fork (`NUM_TAG_COLUMNS_LIMIT` and `Catalog::NUM_DBS_LIMIT`
are both `usize::MAX = 2^64 - 1`); adding a fresh tag column always succeeds
regardless of how many tag columns the table holds; the only remaining limit
check is in `db_or_create`, which fails with `TooManyDbs` exactly when the
non-deleted external database count has reached the configured limit, and
creates the database otherwise. -/
theorem tag_and_db_limits_unlocked (t : TableDefinition) (id : Nat)
    (nm : String) (dbs : List (String × Bool)) (lim : Nat) (dbName : String) :
    (NUM_TAG_COLUMNS_LIMIT = 2 ^ 64 - 1 ∧ NUM_DBS_LIMIT = 2 ^ 64 - 1) ∧
    (containsName (btreeFromList t.columns) nm = false →
      (t.add_columns [(id, nm, InfluxColumnType.tag)]).isSome = true) ∧
    (dbs.any (fun d => d.1 = dbName) = false →
      (database_count dbs < lim →
        db_or_create dbs lim dbName = .ok (dbs ++ [(dbName, false)])) ∧
      (database_count dbs ≥ lim →
        db_or_create dbs lim dbName = .error (.tooManyDbs lim))) := by
  refine ⟨⟨rfl, rfl⟩, ?_, ?_⟩
  · intro h
    unfold TableDefinition.add_columns addColumnsLoop
    simp only [h, Bool.false_eq_true, if_false]
    split
    · rename_i heq
      split at heq <;> split at heq <;> simp [addColumnsLoop] at heq
    · simp
  · intro hany
    constructor
    · intro hlt
      simp [db_or_create, hany, Nat.not_le.mpr hlt]
    · intro hge
      simp [db_or_create, hany, hge]

/-- Witness for the amended claim C1: adding a tag to the empty table
succeeds; with one external database and a configured limit of 1, creating a
second database fails with `TooManyDbs 1`, while a limit of 5 admits it. -/
theorem tag_and_db_limits_unlocked_witness :
    ((⟨0, "m", [], [], [], []⟩ : TableDefinition).add_columns
      [(0, "a", InfluxColumnType.tag)]).isSome = true ∧
    db_or_create [("x", false)] 1 "y" = .error (.tooManyDbs 1) ∧
    db_or_create [("x", false)] 5 "y" = .ok [("x", false), ("y", false)] :=
  ⟨(tag_and_db_limits_unlocked ⟨0, "m", [], [], [], []⟩ 0 "a" [] 0 "").2.1
      (by decide),
    ((tag_and_db_limits_unlocked ⟨0, "m", [], [], [], []⟩ 0 "a"
      [("x", false)] 1 "y").2.2 (by decide)).2 (by decide),
    ((tag_and_db_limits_unlocked ⟨0, "m", [], [], [], []⟩ 0 "a"
      [("x", false)] 5 "y").2.2 (by decide)).1 (by decide)⟩

/-! ## Claims C8 and C10: repository lemmas -/

/-- Every element of `mapInsert m id res` either carries the inserted id or
was already in `m`. -/
theorem mem_mapInsert {m : List (Nat × Resource)} {id : Nat} {res : Resource}
    {p : Nat × Resource} (hp : p ∈ mapInsert m id res) : p.1 = id ∨ p ∈ m := by
  unfold mapInsert at hp
  split at hp
  · rcases List.mem_map.mp hp with ⟨q, hq, hqe⟩
    by_cases hq1 : q.1 = id
    · simp [hq1] at hqe
      left
      rw [← hqe]
    · simp [hq1] at hqe
      right
      rw [← hqe]
      exact hq
  · rcases List.mem_append.mp hp with h | h
    · right
      exact h
    · left
      simp at h
      rw [h]

/-- Id-membership of the value map after `mapInsert`: the inserted id, or an
id already present. -/
theorem mem_mapInsert_ids (m : List (Nat × Resource)) (id : Nat)
    (res : Resource) (i : Nat) :
    (∃ p ∈ mapInsert m id res, p.1 = i) ↔ (i = id ∨ ∃ p ∈ m, p.1 = i) := by
  constructor
  · rintro ⟨p, hp, rfl⟩
    rcases mem_mapInsert hp with h | h
    · left
      rw [h]
    · right
      exact ⟨p, h, rfl⟩
  · rintro (rfl | ⟨p, hp, rfl⟩)
    · unfold mapInsert
      split

      · rename_i hany
        rcases List.any_eq_true.mp hany with ⟨q, hq, hqi⟩
        simp at hqi
        refine ⟨(i, res), List.mem_map.mpr ⟨q, hq, by simp [hqi]⟩, rfl⟩
      · exact ⟨(i, res), List.mem_append.mpr (.inr (by simp)), rfl⟩
    · unfold mapInsert
      split
      · by_cases hp1 : p.1 = id
        · refine ⟨(id, res), List.mem_map.mpr ⟨p, hp, by simp [hp1]⟩, by rw [← hp1]⟩
        · exact ⟨p, List.mem_map.mpr ⟨p, hp, by simp [hp1]⟩, rfl⟩
      · exact ⟨p, List.mem_append.mpr (.inl hp), rfl⟩

/-- Id-membership of the bi-map after an overwriting `bimapInsert`, under the
assumption that the inserted name is not already mapped to a different id. -/
theorem mem_bimapInsert_ids (m : List (Nat × String)) (id : Nat)
    (name : String) (i : Nat)
    (hname : ∀ p ∈ m, p.2 = name → p.1 = id) :
    (∃ p ∈ bimapInsert m id name, p.1 = i) ↔ (i = id ∨ ∃ p ∈ m, p.1 = i) := by
  unfold bimapInsert
  constructor
  · rintro ⟨p, hp, rfl⟩
    rcases List.mem_append.mp hp with h | h
    · right
      exact ⟨p, (List.mem_filter.mp h).1, rfl⟩
    · left
      simp at h
      rw [h]
  · rintro (rfl | ⟨p, hp, rfl⟩)
    · exact ⟨(i, name), List.mem_append.mpr (.inr (by simp)), rfl⟩
    · by_cases hp1 : p.1 = id
      · exact ⟨(id, name), List.mem_append.mpr (.inr (by simp)), by rw [← hp1]⟩
      · refine ⟨p, List.mem_append.mpr (.inl (List.mem_filter.mpr ⟨hp, ?_⟩)), rfl⟩
        have hpn : p.2 ≠ name := fun hc => hp1 (hname p hp hc)
        simp [hp1, hpn]

/-- Id-membership after filtering out one id. -/
theorem mem_filter_ne_ids {α : Type} (m : List (Nat × α)) (id i : Nat) :
    (∃ p ∈ m.filter (fun p => p.1 ≠ id), p.1 = i) ↔
      (i ≠ id ∧ ∃ p ∈ m, p.1 = i) := by
  constructor
  · rintro ⟨p, hp, rfl⟩
    rcases List.mem_filter.mp hp with ⟨hm, hne⟩
    simp at hne
    exact ⟨hne, p, hm, rfl⟩
  · rintro ⟨hne, p, hp, rfl⟩
    exact ⟨p, List.mem_filter.mpr ⟨hp, by simpa using hne⟩, rfl⟩

/-- The record produced by a succeeding `Repository::insert`. -/
theorem insert_ok_elim {r : Repository} {id : Nat} {res : Resource}
    {r2 : Repository} (h : r.insert id res = some (.ok r2)) :
    r2.repo = mapInsert r.repo id res ∧
    r2.id_name_map = bimapInsert r.id_name_map id res.name ∧
    r2.next_id = if r.next_id ≤ id then id + 1 else r.next_id := by
  unfold Repository.insert at h
  split at h
  · exact absurd h (by simp)
  · exact absurd h (by simp)
  · rw [Option.some_inj] at h
    cases h
    exact ⟨rfl, rfl, rfl⟩

/-- The record produced by a succeeding `Repository::update`. -/
theorem update_ok_elim {r : Repository} {id : Nat} {res : Resource}
    {r2 : Repository} (h : r.update id res = some (.ok r2)) :
    r2.repo = mapInsert r.repo id res ∧
    r2.id_name_map = bimapInsert r.id_name_map id res.name ∧
    r2.next_id = r.next_id := by
  unfold Repository.update at h
  split at h
  · exact absurd h (by simp)
  · exact absurd h (by simp)
  · rw [Option.some_inj] at h
    cases h
    exact ⟨rfl, rfl, rfl⟩

/-! ## Claim C8 -/

/-- Counterexample to claim C8: the repository obtained from the empty
repository by the two succeeding inserts `insert(0, "a")` and `insert(1, "a")`
is reachable, yet its value map holds ids `{0, 1}` while its id-name bi-map
holds only id `1` — the bimap's overwriting insert dropped the pair
`(0, "a")` without touching the value map. -/
theorem repo_bimap_desync_reachable :
    Reachable repoB ∧ ¬ repoB.sameIdSet := by
  constructor
  · have h1 : Repository.new.insert 0 ⟨"a", 0⟩ = some (.ok repoA) := rfl
    have h2 : repoA.insert 1 ⟨"a", 1⟩ = some (.ok repoB) := rfl
    exact Reachable.insertOk (Reachable.insertOk Reachable.new h1) h2
  · intro h
    have h0 := (h 0).mp ⟨(0, ⟨"a", 0⟩), by simp [repoB]⟩
    simp [repoB] at h0

/-- Claim C8 as amended: for every repository reachable from the empty
repository by inserts, updates and removes in which no operation introduces a
resource name already mapped to a different id, the id-name bi-map and the
value map contain exactly the same set of ids. (The unrestricted claim fails:
see the counterexample, where an insert reusing the name of a different id
makes the bimap's overwriting insert drop the other id's pair.) -/
theorem safe_reachable_same_id_set {r : Repository} (h : SafeReachable r) :
    r.sameIdSet := by
  induction h with
  | new =>
    intro i
    simp [Repository.new]
  | insertOk hr hname hins ih =>
    rename_i r0 id res r2
    obtain ⟨hrepo, hmap, _⟩ := insert_ok_elim hins
    intro i
    rw [hrepo, hmap]
    rw [mem_mapInsert_ids, mem_bimapInsert_ids _ _ _ _ hname]
    rcases Classical.em (i = id) with hi | hi
    · simp [hi]
    · simp only [hi, false_or]
      exact ih i
  | updateOk hr hname hupd ih =>
    rename_i r0 id res r2
    obtain ⟨hrepo, hmap, _⟩ := update_ok_elim hupd
    intro i
    rw [hrepo, hmap]
    rw [mem_mapInsert_ids, mem_bimapInsert_ids _ _ _ _ hname]
    rcases Classical.em (i = id) with hi | hi
    · simp [hi]
    · simp only [hi, false_or]
      exact ih i
  | removeStep id hr ih =>
    rename_i r0
    intro i
    have hrepo : (Repository.remove r0 id).repo =
        List.filter (fun p => p.1 ≠ id) r0.repo := rfl
    have hmap : (Repository.remove r0 id).id_name_map =
        List.filter (fun p => p.1 ≠ id) r0.id_name_map := rfl
    rw [hrepo, hmap, mem_filter_ne_ids, mem_filter_ne_ids]
    exact and_congr_right fun _ => ih i

/-- Witness for the amended claim C8: the repository reached by the single
insert `insert(0, "a")` satisfies the same-id-set invariant. -/
theorem safe_reachable_same_id_set_witness : repoA.sameIdSet :=
  safe_reachable_same_id_set
    (SafeReachable.insertOk SafeReachable.new (by intro p hp; cases hp) rfl)

/-! ## Claim C10 -/

/-- Every id stored in a repository reachable by inserts and generated-id
insertions is strictly below `next_id`. -/
theorem reachableWithGen_next_id_bound {r : Repository}
    (h : ReachableWithGen r) : ∀ p ∈ r.repo, p.1 < r.next_id := by
  induction h with
  | new =>
    intro p hp
    cases hp
  | insertOk hr hins ih =>
    rename_i r0 id res r2
    obtain ⟨hrepo, _, hnext⟩ := insert_ok_elim hins
    intro p hp
    rw [hrepo] at hp
    rw [hnext]
    rcases mem_mapInsert hp with h1 | h1
    · rw [h1]
      split <;> omega
    · have := ih p h1
      split <;> omega
  | genStep hr ih =>
    intro p hp
    have := ih p hp
    simp only [Repository.get_and_increment_next_id]
    omega

/-- Claim C10: after every successful `Repository::insert(id, resource)` on a
reachable repository, `next_id` becomes the maximum of the old `next_id` and
`id + 1` and strictly exceeds every stored id; consequently
`get_and_increment_next_id` never returns an id already present. -/
theorem next_id_exceeds_stored_ids {r : Repository}
    (h : ReachableWithGen r) :
    (∀ id res r2, r.insert id res = some (.ok r2) →
      r2.next_id = max r.next_id (id + 1) ∧ ∀ p ∈ r2.repo, p.1 < r2.next_id) ∧
    (∀ p ∈ r.repo, p.1 ≠ r.get_and_increment_next_id.1) := by
  constructor
  · intro id res r2 hins
    obtain ⟨_, _, hnext⟩ := insert_ok_elim hins
    constructor
    · rw [hnext]
      split <;> omega
    · exact reachableWithGen_next_id_bound (ReachableWithGen.insertOk h hins)
  · intro p hp
    have hb := reachableWithGen_next_id_bound h p hp
    simp only [Repository.get_and_increment_next_id]
    omega

/-! ## Claim C5: series key and sort key -/

/-- Counterexample to claim C5 as stated: starting from
`TableDefinition::new(1, "tbl", [(0, aaa, Tag)], [0])`, the call
`add_columns [(0, time, Timestamp)]` succeeds — no assert fires, since the
name `time` is fresh — yet because id 0 is already in the series key,
`sort_key_changed` stays false and the sort key is never rebuilt. The
resulting table contains the time column, but its sort key still ends in
`"aaa"`, not the time column. So the invariant does not hold for arbitrary
`new`/`add_columns` sequences. -/
theorem time_column_escapes_sort_key_rebuild :
    TableDefinition.new 1 "tbl" [(0, "aaa", .tag)] [0] = some c5bad0 ∧
    c5bad0.add_columns [(0, "time", .timestamp)] = some c5bad1 ∧
    containsName c5bad1.columns TIME_COLUMN_NAME = true ∧
    c5bad1.sort_key.getLast? = some "aaa" ∧
    ¬ c5bad1.sort_key.getLast? = some TIME_COLUMN_NAME := by
  refine ⟨rfl, rfl, rfl, rfl, by decide⟩

/-- Every element of `btreeInsert cols c` is an element of `cols` or is `c`. -/
theorem mem_btreeInsert {cols : List ColumnDefinition} {c d : ColumnDefinition}
    (hd : d ∈ btreeInsert cols c) : d ∈ cols ∨ d = c := by
  induction cols with
  | nil =>
    simp [btreeInsert] at hd
    exact .inr hd
  | cons e rest ih =>
    rw [btreeInsert] at hd
    split at hd
    · rcases List.mem_cons.mp hd with h1 | h1
      · exact .inr h1
      · exact .inl h1
    · split at hd
      · rcases List.mem_cons.mp hd with h1 | h1
        · exact .inr h1
        · exact .inl (List.mem_cons_of_mem e h1)
      · rcases List.mem_cons.mp hd with h1 | h1
        · exact .inl (by rw [h1]; exact List.mem_cons_self e rest)
        · rcases ih h1 with h2 | h2
          · exact .inl (List.mem_cons_of_mem e h2)
          · exact .inr h2

/-- Every element of a folded `btreeInsert` chain comes from the accumulator
or from the input list. -/
theorem mem_btreeFold {l : List ColumnDefinition}
    {acc : List ColumnDefinition} {d : ColumnDefinition}
    (hd : d ∈ l.foldl btreeInsert acc) : d ∈ acc ∨ d ∈ l := by
  induction l generalizing acc with
  | nil => exact .inl hd
  | cons c rest ih =>
    rcases ih hd with h1 | h1
    · rcases mem_btreeInsert h1 with h2 | h2
      · exact .inl h2
      · exact .inr (by rw [h2]; exact List.mem_cons_self c rest)
    · exact .inr (List.mem_cons_of_mem c h1)

/-- Every element of `btreeFromList l` is an element of `l`. -/
theorem mem_btreeFromList {l : List ColumnDefinition} {d : ColumnDefinition}
    (hd : d ∈ btreeFromList l) : d ∈ l := by
  rcases mem_btreeFold hd with h | h
  · cases h
  · exact h

/-- Every element of `colRepoInsert cols c` is an element of `cols` or is
`c`. -/
theorem mem_colRepoInsert {cols : List ColumnDefinition}
    {c d : ColumnDefinition} (hd : d ∈ colRepoInsert cols c) :
    d ∈ cols ∨ d = c := by
  unfold colRepoInsert at hd
  split at hd
  · rcases List.mem_map.mp hd with ⟨q, hq, hqe⟩
    by_cases hq1 : q.id = c.id
    · simp only [hq1, if_true] at hqe
      exact .inr hqe.symm
    · simp only [hq1, if_false] at hqe
      exact .inl (by rw [← hqe]; exact hq)
  · rcases List.mem_append.mp hd with h1 | h1
    · exact .inl h1
    · simp at h1
      exact .inr h1

/-- Every element of `colRepoFromList l` is an element of `l`. -/
theorem mem_colRepoFromList {l : List ColumnDefinition} {d : ColumnDefinition}
    (hd : d ∈ colRepoFromList l) : d ∈ l := by
  have general : ∀ (l2 : List ColumnDefinition)
      (acc : List ColumnDefinition), d ∈ l2.foldl colRepoInsert acc →
      d ∈ acc ∨ d ∈ l2 := by
    intro l2
    induction l2 with
    | nil => exact fun acc h => .inl h
    | cons c rest ih =>
      intro acc h
      rcases ih _ h with h1 | h1
      · rcases mem_colRepoInsert h1 with h2 | h2
        · exact .inl h2
        · exact .inr (by rw [h2]; exact List.mem_cons_self c rest)
      · exact .inr (List.mem_cons_of_mem c h1)
  rcases general l [] hd with h | h
  · cases h
  · exact h

/-- `containsName` as an existential over the column list. -/
theorem containsName_iff {cols : List ColumnDefinition} {nm : String} :
    containsName cols nm = true ↔ ∃ c ∈ cols, c.name = nm := by
  simp [containsName]

/-- Specification of the `add_columns` loop: every produced column was already
present or carries the name of one of the new columns, and when the loop
reports no sort-key change, it started unchanged, left the series key and its
names alone, and every new column with an id outside the series key was a
plain field. -/
theorem addColumnsLoop_spec :
    ∀ (newCols : List (Nat × String × InfluxColumnType))
      (cols : List ColumnDefinition) (sk : List Nat) (skn : List String)
      (changed : Bool)
      (out : List ColumnDefinition × List Nat × List String × Bool),
    addColumnsLoop cols sk skn changed newCols = some out →
    (∀ d ∈ out.1, d ∈ cols ∨ ∃ c ∈ newCols, d.name = c.2.1) ∧
    (out.2.2.2 = false →
      changed = false ∧ out.2.1 = sk ∧ out.2.2.1 = skn ∧
      ∀ c ∈ newCols, c.1 ∉ sk →
        c.2.2 ≠ InfluxColumnType.tag ∧ c.2.2 ≠ InfluxColumnType.timestamp) := by
  intro newCols
  induction newCols with
  | nil =>
    intro cols sk skn changed out h
    rw [addColumnsLoop] at h
    rw [Option.some_inj] at h
    subst h
    exact ⟨fun d hd => .inl hd, fun hch => ⟨hch, rfl, rfl, by simp⟩⟩
  | cons hc rest ih =>
    intro cols sk skn changed out h
    obtain ⟨id, nm, typ⟩ := hc
    rw [addColumnsLoop] at h
    by_cases hn : containsName cols nm = true
    · rw [if_pos hn] at h
      exact absurd h (by simp)
    · rw [if_neg hn] at h
      by_cases hA : typ = InfluxColumnType.tag ∧ ¬ sk.contains id = true
      · rw [if_pos hA] at h
        obtain ⟨hmem, hfalse⟩ := ih _ _ _ _ _ h
        constructor
        · intro d hd
          rcases hmem d hd with h1 | h1
          · rcases mem_btreeInsert h1 with h2 | h2
            · exact .inl h2
            · exact .inr ⟨(id, nm, typ), List.mem_cons_self _ _, by rw [h2]⟩
          · obtain ⟨c, hcm, hcn⟩ := h1
            exact .inr ⟨c, List.mem_cons_of_mem _ hcm, hcn⟩
        · intro hch
          obtain ⟨h1, _, _, _⟩ := hfalse hch
          cases h1
      · rw [if_neg hA] at h
        by_cases hB : typ = InfluxColumnType.timestamp ∧ ¬ sk.contains id = true
        · rw [if_pos hB] at h
          obtain ⟨hmem, hfalse⟩ := ih _ _ _ _ _ h
          constructor
          · intro d hd
            rcases hmem d hd with h1 | h1
            · rcases mem_btreeInsert h1 with h2 | h2
              · exact .inl h2
              · exact .inr ⟨(id, nm, typ), List.mem_cons_self _ _, by rw [h2]⟩
            · obtain ⟨c, hcm, hcn⟩ := h1
              exact .inr ⟨c, List.mem_cons_of_mem _ hcm, hcn⟩
          · intro hch
            obtain ⟨h1, _, _, _⟩ := hfalse hch
            cases h1
        · rw [if_neg hB] at h
          obtain ⟨hmem, hfalse⟩ := ih _ _ _ _ _ h
          constructor
          · intro d hd
            rcases hmem d hd with h1 | h1
            · rcases mem_btreeInsert h1 with h2 | h2
              · exact .inl h2
              · exact .inr ⟨(id, nm, typ), List.mem_cons_self _ _, by rw [h2]⟩
            · obtain ⟨c, hcm, hcn⟩ := h1
              exact .inr ⟨c, List.mem_cons_of_mem _ hcm, hcn⟩
          · intro hch
            obtain ⟨h1, h2, h3, h4⟩ := hfalse hch
            refine ⟨h1, h2, h3, ?_⟩
            intro c hcm hcsk
            rcases List.mem_cons.mp hcm with h5 | h5
            · subst h5
              have hcont : ¬ sk.contains id = true := by
                intro h6
                exact absurd (List.elem_iff.mp h6) hcsk
              constructor
              · intro ht
                exact hA ⟨ht, hcont⟩
              · intro ht
                exact hB ⟨ht, hcont⟩
            · exact h4 c h5 hcsk

/-- The sort key built by `make_sort_key` extends the series key names, and
ends with the time column whenever the time flag is set. -/
theorem make_sort_key_spec (skn : List String) (flag : Bool) :
    skn <+: make_sort_key skn flag ∧
    (flag = true →
      (make_sort_key skn flag).getLast? = some TIME_COLUMN_NAME) := by
  unfold make_sort_key
  cases flag
  · exact ⟨List.prefix_refl _, by simp⟩
  · exact ⟨List.prefix_append _ _, fun _ => List.getLast?_concat _⟩

/-- The sort-key invariant established by `TableDefinition::new`. -/
theorem new_sort_key_spec {tid : Nat} {name : String}
    {cols : List (Nat × String × InfluxColumnType)} {sk : List Nat}
    {t : TableDefinition} (h : TableDefinition.new tid name cols sk = some t) :
    t.series_key_names <+: t.sort_key ∧
    (containsName t.columns TIME_COLUMN_NAME = true →
      t.sort_key.getLast? = some TIME_COLUMN_NAME) := by
  simp only [TableDefinition.new] at h
  split at h
  · exact absurd h (by simp)
  · rename_i skNames heq
    rw [Option.some_inj] at h
    subst h
    constructor
    · exact (make_sort_key_spec skNames _).1
    · intro hc
      simp only at hc
      exact (make_sort_key_spec skNames _).2 hc

/-- The sort-key invariant is preserved by `TableDefinition::add_columns`,
when no new column id collides with the series key and columns named `time`
are timestamps. -/
theorem add_columns_sort_key_spec {t : TableDefinition}
    {newCols : List (Nat × String × InfluxColumnType)} {t2 : TableDefinition}
    (h : t.add_columns newCols = some t2)
    (htyping : ∀ c ∈ newCols, c.2.1 = TIME_COLUMN_NAME →
      c.2.2 = InfluxColumnType.timestamp)
    (hfresh : ∀ c ∈ newCols, c.1 ∉ t.series_key)
    (ih1 : t.series_key_names <+: t.sort_key)
    (ih2 : containsName t.columns TIME_COLUMN_NAME = true →
      t.sort_key.getLast? = some TIME_COLUMN_NAME) :
    t2.series_key_names <+: t2.sort_key ∧
    (containsName t2.columns TIME_COLUMN_NAME = true →
      t2.sort_key.getLast? = some TIME_COLUMN_NAME) := by
  unfold TableDefinition.add_columns at h
  split at h
  · exact absurd h (by simp)
  · rename_i out cols sk skn changed heq
    rw [Option.some_inj] at h
    subst h
    obtain ⟨hmem, hfalse⟩ := addColumnsLoop_spec newCols _ _ _ _ _ heq
    cases hch : changed with
    | true =>
      constructor
      · exact (make_sort_key_spec skn _).1
      · intro hc
        simp only at hc
        exact (make_sort_key_spec skn _).2 hc
    | false =>
      obtain ⟨_, hsk, hskn, hfield⟩ := hfalse (by rw [hch])
      dsimp only at hsk hskn
      constructor
      · show skn <+: t.sort_key
        rw [hskn]
        exact ih1
      · intro hc
        simp only at hc
        show t.sort_key.getLast? = some TIME_COLUMN_NAME
        rcases containsName_iff.mp hc with ⟨d, hd, hdn⟩
        rcases hmem d (mem_colRepoFromList hd) with h1 | h1
        · have hold : containsName t.columns TIME_COLUMN_NAME = true :=
            containsName_iff.mpr ⟨d, mem_btreeFromList h1, hdn⟩
          simpa using ih2 hold
        · obtain ⟨c, hcm, hcn⟩ := h1
          have hts : c.2.2 = InfluxColumnType.timestamp :=
            htyping c hcm (by rw [← hcn, hdn])
          have := (hfield c hcm (hfresh c hcm)).2
          exact absurd hts this

/-- Claim C5 as amended: for every table definition reachable by
`TableDefinition::new` and `add_columns` through sequences in which no added
column reuses a series-key id and every column named `time` is
Timestamp-typed (the `TableReachable` side conditions), the series key names
are a prefix of the sort key, and when the table has a column named `time`,
the sort key ends with it. Without those restrictions the invariant fails:
see the counterexample above. -/
theorem series_key_prefix_sort_key_invariant {t : TableDefinition}
    (h : TableReachable t) :
    t.series_key_names <+: t.sort_key ∧
    (containsName t.columns TIME_COLUMN_NAME = true →
      t.sort_key.getLast? = some TIME_COLUMN_NAME) := by
  induction h with
  | newTable hnew => exact new_sort_key_spec hnew
  | addCols hr htyping hfresh hadd ih =>
    exact add_columns_sort_key_spec hadd htyping hfresh ih.1 ih.2

/-- Witness for claim C5: the table built by `new` with a field and a tag and
then extended with the time column (the spec's scenario S2) satisfies the
invariant — its series key names `["tag999"]` prefix the sort key
`["tag999", "time"]`, which ends with the time column. -/
theorem series_key_prefix_sort_key_invariant_witness :
    c5table1.series_key_names <+: c5table1.sort_key ∧
    (containsName c5table1.columns TIME_COLUMN_NAME = true →
      c5table1.sort_key.getLast? = some TIME_COLUMN_NAME) := by
  have h0 : TableDefinition.new 1 "tbl"
      [(0, "f1", .field), (1, "tag999", .tag)] [1] = some c5table0 := rfl
  have h1 : c5table0.add_columns [(2, "time", .timestamp)] = some c5table1 :=
    rfl
  exact series_key_prefix_sort_key_invariant
    (TableReachable.addCols (TableReachable.newTable h0)
      (by decide) (by decide) h1)

/-! ## Claim C9: path parsing lemmas -/

/-- `findGen` finds nothing exactly when `"/gen"` is not an infix of the
path. -/
theorem findGen_eq_none {l : List Char} :
    findGen l = none ↔ ¬ genMarker <:+: l := by
  induction l with
  | nil =>
    simp [findGen, genMarker]
  | cons c rest ih =>
    rw [findGen]
    by_cases h : genMarker.isPrefixOf (c :: rest)
    · have hpre : genMarker <+: c :: rest := List.isPrefixOf_iff_prefix.mp h
      simp [h, List.infix_cons_iff, hpre]
    · have hpre : ¬ genMarker <+: c :: rest :=
        fun hc => h (List.isPrefixOf_iff_prefix.mpr hc)
      simp only [h, Bool.false_eq_true, if_false, ih, List.infix_cons_iff]
      tauto

/-- When the prefix contains no `"/gen"`, `findGen` returns exactly the part
after the first marker. -/
theorem findGen_append {pre tail : List Char} (h : findGen pre = none) :
    findGen (pre ++ genMarker ++ tail) = some tail := by
  induction pre with
  | nil =>
    simp [findGen, genMarker, List.isPrefixOf]
  | cons c pre2 ih =>
    by_cases hp : genMarker.isPrefixOf (c :: pre2)
    · rw [findGen] at h
      simp [hp] at h
    · rw [findGen] at h
      simp only [hp, Bool.false_eq_true, if_false] at h
      have htail := ih h
      have hcond :
          genMarker.isPrefixOf (c :: (pre2 ++ (genMarker ++ tail))) = false := by
        rcases pre2 with _ | ⟨a, _ | ⟨b, _ | ⟨d, pre3⟩⟩⟩
        · simp [genMarker, List.isPrefixOf]
        · simp [genMarker, List.isPrefixOf]
        · simp [genMarker, List.isPrefixOf]
        · simp only [genMarker, List.isPrefixOf, List.cons_append] at hp ⊢
          simpa using hp
      rw [show (c :: pre2) ++ genMarker ++ tail =
        c :: (pre2 ++ (genMarker ++ tail)) from by simp]
      rw [findGen]
      rw [if_neg (by simp [hcond])]
      simpa [List.append_assoc] using htail

/-- Digit characters for values below ten. -/
theorem char_ofNat_isDigit {k : Nat} (hk : k < 10) :
    (Char.ofNat ('0'.toNat + k)).isDigit = true := by
  interval_cases k <;> decide

/-- Digit values for values below ten. -/
theorem digitVal_ofNat {k : Nat} (hk : k < 10) :
    digitVal? (Char.ofNat ('0'.toNat + k)) = some k := by
  interval_cases k <;> decide

/-- The decimal digits of a number are never empty. -/
theorem natDigits_ne_nil (n : Nat) : natDigits n ≠ [] := by
  unfold natDigits
  split
  · simp
  · simp

/-- Every character of `natDigits` is a decimal digit. -/
theorem natDigits_isDigit (n : Nat) : ∀ c ∈ natDigits n, c.isDigit = true := by
  induction n using Nat.strong_induction_on with
  | _ n ih =>
    intro c hc
    unfold natDigits at hc
    split at hc
    · rename_i h
      simp at hc
      rw [hc]
      exact char_ofNat_isDigit (by omega)
    · rename_i h
      rcases List.mem_append.mp hc with h1 | h1
      · exact ih (n / 10) (Nat.div_lt_self (by omega) (by omega)) c h1
      · simp at h1
        rw [h1]
        exact char_ofNat_isDigit (Nat.mod_lt _ (by omega))

/-- A digit character is not a slash. -/
theorem isDigit_ne_slash {c : Char} (h : c.isDigit = true) : c ≠ '/' := by
  intro hc
  rw [hc] at h
  exact absurd h (by decide)

/-- A digit character is not a plus sign. -/
theorem isDigit_ne_plus {c : Char} (h : c.isDigit = true) : c ≠ '+' := by
  intro hc
  rw [hc] at h
  exact absurd h (by decide)

/-- `parseNatGo` distributes over list append. -/
theorem parseNatGo_append (acc : Nat) (xs ys : List Char) :
    parseNatGo acc (xs ++ ys) =
      match parseNatGo acc xs with
      | some a => parseNatGo a ys
      | none => none := by
  induction xs generalizing acc with
  | nil => rfl
  | cons c cs ih =>
    cases hd : digitVal? c with
    | none => simp [List.cons_append, parseNatGo, hd]
    | some d =>
      simp only [List.cons_append, parseNatGo, hd]
      exact ih _

/-- Parsing the decimal digits of `n` from accumulator `acc` yields
`acc` shifted past those digits, plus `n`. -/
theorem parseNatGo_natDigits (n : Nat) :
    ∀ acc, parseNatGo acc (natDigits n) =
      some (acc * 10 ^ (natDigits n).length + n) := by
  induction n using Nat.strong_induction_on with
  | _ n ih =>
    intro acc
    by_cases h : n < 10
    · unfold natDigits
      rw [if_pos h]
      simp only [parseNatGo, digitVal_ofNat h]
      simp
    · unfold natDigits
      rw [if_neg h]
      rw [parseNatGo_append]
      rw [ih (n / 10) (Nat.div_lt_self (by omega) (by omega)) acc]
      simp only [parseNatGo, digitVal_ofNat (Nat.mod_lt _ (by omega))]
      have h2 : n / 10 * 10 + n % 10 = n := by omega
      rw [Option.some_inj]
      rw [List.length_append, List.length_singleton, pow_succ]
      calc (acc * 10 ^ (natDigits (n / 10)).length + n / 10) * 10 + n % 10
          = acc * (10 ^ (natDigits (n / 10)).length * 10) +
              (n / 10 * 10 + n % 10) := by ring
        _ = acc * (10 ^ (natDigits (n / 10)).length * 10) + n := by rw [h2]

/-- `parse_u8` round-trips the decimal digits of a value that fits in a `u8`,
and rejects the digits of a larger value. -/
theorem parse_u8_natDigits (g : Nat) :
    parse_u8 (natDigits g) = if g ≤ 255 then some g else none := by
  obtain ⟨c, cs, hcons⟩ := List.exists_cons_of_ne_nil (natDigits_ne_nil g)
  have hdigit : c.isDigit = true :=
    natDigits_isDigit g c (by rw [hcons]; exact List.mem_cons_self c cs)
  have hplus : c ≠ '+' := isDigit_ne_plus hdigit
  have hgo : parseNatGo 0 (natDigits g) = some g := by
    rw [parseNatGo_natDigits g 0]
    simp
  rw [hcons] at hgo ⊢
  unfold parse_u8
  simp only [if_neg hplus, List.cons_ne_nil, if_false, hgo]

/-- The first run of non-slash characters in `xs ++ '/' :: ys` is `xs`, when
no character of `xs` is a slash. -/
theorem takeWhile_until_slash {xs ys : List Char}
    (hxs : ∀ x ∈ xs, x ≠ '/') :
    (xs ++ '/' :: ys).takeWhile (fun c => c ≠ '/') = xs := by
  induction xs with
  | nil => simp [List.takeWhile_cons]
  | cons x xs2 ih =>
    have hx : x ≠ '/' := hxs x (List.mem_cons_self x xs2)
    rw [List.cons_append, List.takeWhile_cons, if_pos (by simp [hx])]
    rw [ih (fun z hz => hxs z (List.mem_cons_of_mem x hz))]

/-- Claim C9: a path with no `"/gen"` segment is treated as generation 1; a
path whose `"/gen"` segment (the characters between the first `"/gen"` and the
next `'/'`) is the decimal representation of a level between 1 and 5 yields
that level; and a path whose segment carries a generation greater than 5 is
rejected with an error. -/
theorem file_generation_parsing_spec (path pre post : List Char) (g : Nat) :
    (¬ genMarker <:+: path → get_file_generation path = .ok 1) ∧
    (¬ genMarker <:+: pre → 1 ≤ g → g ≤ 5 →
      get_file_generation (pre ++ genMarker ++ (natDigits g ++ '/' :: post)) =
        .ok g) ∧
    (¬ genMarker <:+: pre → 5 < g →
      ∃ e, get_file_generation
        (pre ++ genMarker ++ (natDigits g ++ '/' :: post)) = .error e) := by
  have hdig : ∀ c ∈ natDigits g, c ≠ '/' :=
    fun c hc => isDigit_ne_slash (natDigits_isDigit g c hc)
  have htake : takeToSlash (natDigits g ++ '/' :: post) = some (natDigits g) := by
    unfold takeToSlash
    rw [if_pos (by simp), takeWhile_until_slash hdig]
  refine ⟨?_, ?_, ?_⟩
  · intro hnot
    have h0 : findGen path = none := findGen_eq_none.mpr hnot
    unfold get_file_generation
    simp only [h0]
  · intro hpre h1 h5
    have hfind := @findGen_append pre (natDigits g ++ '/' :: post)
      (findGen_eq_none.mpr hpre)
    unfold get_file_generation
    simp only [hfind, htake, parse_u8_natDigits g]
    rw [if_pos (show g ≤ 255 by omega)]
    simp only []
    rw [if_pos ⟨h1, h5⟩]
  · intro hpre h5
    have hfind := @findGen_append pre (natDigits g ++ '/' :: post)
      (findGen_eq_none.mpr hpre)
    unfold get_file_generation
    simp only [hfind, htake, parse_u8_natDigits g]
    by_cases hle : g ≤ 255
    · rw [if_pos hle]
      simp only []
      rw [if_neg (by omega)]
      exact ⟨_, rfl⟩
    · rw [if_neg hle]
      exact ⟨_, rfl⟩

/-- Witness for claim C9: a path without `"/gen"` maps to generation 1, a
`gen3` path maps to generation 3, and a `gen7` path is rejected. -/
theorem file_generation_parsing_spec_witness :
    get_file_generation (String.toList "dbs/a-0/b-1/f.parquet") = .ok 1 ∧
    get_file_generation (String.toList "dbs/a-0/b-1" ++ genMarker ++
      (natDigits 3 ++ '/' :: String.toList "x.parquet")) = .ok 3 ∧
    (∃ e, get_file_generation (String.toList "dbs/a-0/b-1" ++ genMarker ++
      (natDigits 7 ++ '/' :: String.toList "x.parquet")) = .error e) :=
  ⟨(file_generation_parsing_spec (String.toList "dbs/a-0/b-1/f.parquet")
      (String.toList "dbs/a-0/b-1") (String.toList "x.parquet") 3).1
      (by decide),
    (file_generation_parsing_spec (String.toList "dbs/a-0/b-1/f.parquet")
      (String.toList "dbs/a-0/b-1") (String.toList "x.parquet") 3).2.1
      (by decide) (by decide) (by decide),
    (file_generation_parsing_spec (String.toList "dbs/a-0/b-1/f.parquet")
      (String.toList "dbs/a-0/b-1") (String.toList "x.parquet") 7).2.2
      (by decide) (by decide)⟩

/-- Witness for claim C10: in the repository reached by `insert(0, "a")`, the
stored id 0 differs from the id `get_and_increment_next_id` would hand out. -/
theorem next_id_exceeds_stored_ids_witness :
    (0, (⟨"a", 0⟩ : Resource)).1 ≠ repoA.get_and_increment_next_id.1 := by
  have h0 : Repository.new.insert 0 ⟨"a", 0⟩ = some (.ok repoA) := rfl
  exact (next_id_exceeds_stored_ids
      (ReachableWithGen.insertOk ReachableWithGen.new h0)).2
    (0, ⟨"a", 0⟩) (by simp [repoA])

end Influx
